import Mathlib

/-!
# Verification of the mehrwert update-scheduling and classification engine

Shallow embedding of the backend core of the repository:

* `itemManager.js` (two variants): `classifyItem`, `getUpdateInterval`,
  `processAndStoreItem`, `updateItems`, `getItemsNeedingUpdate`;
* `database.js`: `safeDbOperation`, `upsertItem` and the read operations over
  the SQLite `items` table, modelled as a list of rows in insertion order;
* `universalisClient.js` (the rate-limited variant bundled with
  `database.js`): `UniversalisRequestQueue.processQueue` and
  `fetchMarketData`.

JavaScript numbers are modelled as rationals (`ℚ`); timestamps as naturals.
The JavaScript builtins `parseFloat` and string-`ToNumber` are taken as
parameters of type `String → Option ℚ`, with `none` standing for `NaN`.
-/

/-- A JavaScript runtime value, as far as the classification and storage code
inspects one: numbers (modelled as rationals, so there is no `NaN` among
them), strings, booleans, `null` and `undefined`. -/
inductive JsVal where
  | vNum (q : ℚ)
  | vStr (s : String)
  | vBool (b : Bool)
  | vNull
  | vUndef
deriving DecidableEq, Repr

/-- JavaScript truthiness of a `JsVal`: `0`, `""`, `false`, `null` and
`undefined` are falsy, everything else is truthy. -/
def JsVal.truthy : JsVal → Bool
  | .vNum q => q != 0
  | .vStr s => s != ""
  | .vBool b => b
  | .vNull => false
  | .vUndef => false

/-- `typeof v === 'number'`. -/
def JsVal.isNumber : JsVal → Bool
  | .vNum _ => true
  | _ => false

/-- The fields of a market snapshot read by the first `classifyItem` variant
and by `processAndStoreItem` (`itemManager.js`): `hasData` and `unitsSold`.
The rest of the upstream payload (prices, listings, ...) is carried opaquely
in `payload` and never inspected by the classification code. -/
structure MarketData where
  hasData : JsVal
  unitsSold : JsVal
  payload : List (String × JsVal) := []
deriving DecidableEq, Repr

/-- The fields of a market snapshot read by the second `classifyItem` variant
(`itemManager.js`, second variant): `hasData` and `regularSaleVelocity`. -/
structure MarketData2 where
  hasData : JsVal
  regularSaleVelocity : JsVal
  payload : List (String × JsVal) := []
deriving DecidableEq, Repr

/-- `COLD_THRESHOLD` of the first variant (`itemManager.js` line 26). -/
def COLD_THRESHOLD : ℚ := 100

/-- `MILD_THRESHOLD` of the first variant (`itemManager.js` line 27). -/
def MILD_THRESHOLD : ℚ := 1000

/-- `COLD_THRESHOLD` of the second variant. -/
def COLD_THRESHOLD2 : ℚ := 100

/-- `MILD_THRESHOLD` of the second variant. -/
def MILD_THRESHOLD2 : ℚ := 500

/-- `HOT_UPDATE_INTERVAL = 60 * 1000` ms. -/
def HOT_UPDATE_INTERVAL : ℕ := 60 * 1000

/-- `MILD_UPDATE_INTERVAL = 60 * 60 * 1000` ms. -/
def MILD_UPDATE_INTERVAL : ℕ := 60 * 60 * 1000

/-- `COLD_UPDATE_INTERVAL = 24 * 60 * 60 * 1000` ms. -/
def COLD_UPDATE_INTERVAL : ℕ := 24 * 60 * 60 * 1000

/-- `classifyItem` (first variant, `itemManager.js` lines 61-90).

`pf` models the JavaScript `parseFloat` builtin on strings, `none` standing
for `NaN`.  The argument is `none` when `marketData` is `null`/`undefined`
(the `!marketData` guard).  Mirrors the source:

* `hasActualData = marketData.hasData === true || (unitsSold !== undefined
  && unitsSold !== null && unitsSold !== 'NA')`;
* `unitsSold = marketData.unitsSold || 0`;
* `velocity = typeof unitsSold === 'number' ? unitsSold : parseFloat(unitsSold) || 0`
  (a non-string, non-number truthy value stringifies under `parseFloat` to a
  non-numeric word, hence `NaN`, hence `0`). -/
def classifyItem (pf : String → Option ℚ) : Option MarketData → String
  | none => "cold"
  | some marketData =>
    let hasActualData : Bool :=
      (marketData.hasData == JsVal.vBool true) ||
      (marketData.unitsSold != JsVal.vUndef && marketData.unitsSold != JsVal.vNull &&
        marketData.unitsSold != JsVal.vStr "NA")
    if !hasActualData then "cold"
    else
      let unitsSold := if marketData.unitsSold.truthy then marketData.unitsSold else JsVal.vNum 0
      let velocity : ℚ :=
        match unitsSold with
        | .vNum q => q
        | .vStr s => (pf s).getD 0
        | _ => 0
      if velocity < COLD_THRESHOLD then "cold"
      else if velocity < MILD_THRESHOLD then "mild"
      else "hot"

/-- `classifyItem` (second variant, `itemManager.js` lines 395-409).

`toNum` models JavaScript `ToNumber` on strings (`none` = `NaN`), which is
what the `<` comparisons apply to a string operand; with a `NaN` operand both
threshold comparisons are false, so the `else` branch (`'hot'`) is taken.
Mirrors the source:

* `if (!marketData || !marketData.hasData) return 'cold'`;
* `saleVelocity = marketData.regularSaleVelocity || 0`. -/
def classifyItem2 (toNum : String → Option ℚ) : Option MarketData2 → String
  | none => "cold"
  | some marketData =>
    if !marketData.hasData.truthy then "cold"
    else
      let saleVelocity :=
        if marketData.regularSaleVelocity.truthy then marketData.regularSaleVelocity
        else JsVal.vNum 0
      let v : Option ℚ :=
        match saleVelocity with
        | .vNum q => some q
        | .vStr s => toNum s
        | .vBool b => some (if b then 1 else 0)
        | .vNull => some 0
        | .vUndef => none
      match v with
      | none => "hot"
      | some q =>
        if q < COLD_THRESHOLD2 then "cold"
        else if q < MILD_THRESHOLD2 then "mild"
        else "hot"

/-- `getUpdateInterval` (`itemManager.js` lines 97-108): per-tier refresh
interval, defaulting to the cold interval on an unknown classification. -/
def getUpdateInterval (classification : String) : ℕ :=
  match classification with
  | "hot" => HOT_UPDATE_INTERVAL
  | "mild" => MILD_UPDATE_INTERVAL
  | "cold" => COLD_UPDATE_INTERVAL
  | _ => COLD_UPDATE_INTERVAL

example : classifyItem (fun _ => none)
    (some { hasData := JsVal.vBool false, unitsSold := JsVal.vNum 1500 }) = "hot" := by decide

example : classifyItem (fun _ => none)
    (some { hasData := JsVal.vBool false, unitsSold := JsVal.vUndef }) = "cold" := by decide

example : classifyItem (fun _ => none)
    (some { hasData := JsVal.vBool true, unitsSold := JsVal.vStr "abc" }) = "cold" := by decide

example : classifyItem2 (fun _ => none)
    (some { hasData := JsVal.vBool true, regularSaleVelocity := JsVal.vStr "abc" }) = "hot" := by
  decide

example : classifyItem2 (fun _ => none)
    (some { hasData := JsVal.vBool false, regularSaleVelocity := JsVal.vNum 1500 }) = "cold" := by
  decide

/-! ## Claims C1, C2, C10: the classifier -/

/-- C1 (counterexample): the claim "hasData = false implies cold regardless of
the other fields" is false for the first `classifyItem` variant: a snapshot
with `hasData = false` but a numeric `unitsSold` of 1500 is treated as having
actual data and is classified `hot`. -/
theorem classifyItem_hasData_false_not_cold :
    classifyItem (fun _ => none)
      (some { hasData := JsVal.vBool false, unitsSold := JsVal.vNum 1500 }) ≠ "cold" ∧
    classifyItem (fun _ => none)
      (some { hasData := JsVal.vBool false, unitsSold := JsVal.vNum 1500 }) = "hot" := by
  decide

/-- C1 (amended): with `hasData` not strictly equal to `true`, the first
variant returns `cold` provided `unitsSold` is absent (`undefined`, `null`, or
the placeholder string `'NA'`); the second variant returns `cold` whenever
`hasData` is falsy, regardless of every other field. -/
theorem classifyItem_no_data_cold (pf toNum : String → Option ℚ)
    (h u h2 v2 : JsVal) (p p2 : List (String × JsVal))
    (hh : h ≠ JsVal.vBool true)
    (hu : u = JsVal.vUndef ∨ u = JsVal.vNull ∨ u = JsVal.vStr "NA")
    (hfalsy : h2.truthy = false) :
    classifyItem pf (some { hasData := h, unitsSold := u, payload := p }) = "cold" ∧
    classifyItem2 toNum (some { hasData := h2, regularSaleVelocity := v2, payload := p2 }) =
      "cold" := by
  constructor
  · rcases hu with hu | hu | hu <;> subst hu <;>
      simp [classifyItem, hh]
  · simp [classifyItem2, hfalsy]

/-- C1 witness. -/
theorem classifyItem_no_data_cold_witness :
    classifyItem (fun _ => none)
      (some { hasData := JsVal.vBool false, unitsSold := JsVal.vUndef }) = "cold" ∧
    classifyItem2 (fun _ => none)
      (some { hasData := JsVal.vBool false, regularSaleVelocity := JsVal.vNum 1500 }) = "cold" :=
  classifyItem_no_data_cold (fun _ => none) (fun _ => none)
    (JsVal.vBool false) JsVal.vUndef (JsVal.vBool false) (JsVal.vNum 1500) [] []
    (by decide) (Or.inl rfl) (by decide)

/-- C2: for a snapshot carrying a numeric velocity `v` (which the code then
treats as actual data), the first `classifyItem` variant returns `cold` when
`v < COLD_THRESHOLD`, `mild` when `COLD_THRESHOLD ≤ v < MILD_THRESHOLD`, and
`hot` when `MILD_THRESHOLD ≤ v`; the three velocity ranges are exhaustive and
pairwise disjoint. -/
theorem classifyItem_threshold_cases (pf : String → Option ℚ) (h : JsVal)
    (p : List (String × JsVal)) (v : ℚ) :
    (v < COLD_THRESHOLD →
      classifyItem pf (some { hasData := h, unitsSold := JsVal.vNum v, payload := p }) =
        "cold") ∧
    (COLD_THRESHOLD ≤ v → v < MILD_THRESHOLD →
      classifyItem pf (some { hasData := h, unitsSold := JsVal.vNum v, payload := p }) =
        "mild") ∧
    (MILD_THRESHOLD ≤ v →
      classifyItem pf (some { hasData := h, unitsSold := JsVal.vNum v, payload := p }) =
        "hot") ∧
    (v < COLD_THRESHOLD ∨ (COLD_THRESHOLD ≤ v ∧ v < MILD_THRESHOLD) ∨ MILD_THRESHOLD ≤ v) ∧
    ¬ (v < COLD_THRESHOLD ∧ COLD_THRESHOLD ≤ v) ∧
    ¬ (v < MILD_THRESHOLD ∧ MILD_THRESHOLD ≤ v) := by
  have hv : (if (JsVal.vNum v).truthy then JsVal.vNum v else JsVal.vNum 0) = JsVal.vNum v := by
    by_cases h0 : v = 0
    · subst h0; simp [JsVal.truthy]
    · simp [JsVal.truthy, h0]
  refine ⟨?_, ?_, ?_, ?_, ?_, ?_⟩
  · intro h1; simp [classifyItem, hv, h1]
  · intro h1 h2
    simp [classifyItem, hv, h2, not_lt.mpr h1]
  · intro h1
    have hc : COLD_THRESHOLD ≤ v :=
      le_trans (by norm_num [COLD_THRESHOLD, MILD_THRESHOLD]) h1
    simp [classifyItem, hv, not_lt.mpr h1, not_lt.mpr hc]
  · by_cases h1 : v < COLD_THRESHOLD
    · exact Or.inl h1
    · by_cases h2 : v < MILD_THRESHOLD
      · exact Or.inr (Or.inl ⟨not_lt.mp h1, h2⟩)
      · exact Or.inr (Or.inr (not_lt.mp h2))
  · rintro ⟨h1, h2⟩; exact absurd h1 (not_lt.mpr h2)
  · rintro ⟨h1, h2⟩; exact absurd h1 (not_lt.mpr h2)

/-- C2 witness. -/
theorem classifyItem_threshold_cases_witness :
    classifyItem (fun _ => none)
      (some { hasData := JsVal.vBool true, unitsSold := JsVal.vNum 150 }) = "mild" :=
  (classifyItem_threshold_cases (fun _ => none) (JsVal.vBool true) [] 150).2.1
    (by norm_num [COLD_THRESHOLD]) (by norm_num [MILD_THRESHOLD])

/-- C10 (counterexample): in the second `classifyItem` variant a truthy,
non-numerically-coercible velocity (`regularSaleVelocity = "abc"`, whose
`ToNumber` image is `NaN`) is NOT treated as 0: both threshold comparisons are
false and the item is classified `hot`, not `cold`. -/
theorem classifyItem2_noncoercible_velocity_hot :
    classifyItem2 (fun _ => none)
      (some { hasData := JsVal.vBool true, regularSaleVelocity := JsVal.vStr "abc" }) ≠ "cold" ∧
    classifyItem2 (fun _ => none)
      (some { hasData := JsVal.vBool true, regularSaleVelocity := JsVal.vStr "abc" }) =
      "hot" := by
  decide

/-- C10 (amended): both `classifyItem` variants are total and always return
one of `cold`/`mild`/`hot`; both return `cold` on a `null`/`undefined`
argument; in the FIRST variant a string velocity that fails `parseFloat`
coercion is treated as 0 and yields `cold`; in the SECOND variant a truthy
string velocity whose `ToNumber` image is `NaN` yields `hot` (given truthy
`hasData`). -/
theorem classifyItem_total_and_default_cold (pf toNum : String → Option ℚ)
    (m : Option MarketData) (m2 : Option MarketData2)
    (h h2 : JsVal) (p p2 : List (String × JsVal)) (s s2 : String)
    (hpf : pf s = none) (htn : toNum s2 = none) (hs2 : s2 ≠ "")
    (hh2 : h2.truthy = true) :
    (classifyItem pf m = "cold" ∨ classifyItem pf m = "mild" ∨
      classifyItem pf m = "hot") ∧
    (classifyItem2 toNum m2 = "cold" ∨ classifyItem2 toNum m2 = "mild" ∨
      classifyItem2 toNum m2 = "hot") ∧
    classifyItem pf none = "cold" ∧
    classifyItem2 toNum none = "cold" ∧
    classifyItem pf (some { hasData := h, unitsSold := JsVal.vStr s, payload := p }) =
      "cold" ∧
    classifyItem2 toNum
      (some { hasData := h2, regularSaleVelocity := JsVal.vStr s2, payload := p2 }) =
      "hot" := by
  refine ⟨?_, ?_, rfl, rfl, ?_, ?_⟩
  · rcases m with _ | md
    · exact Or.inl rfl
    · simp only [classifyItem]
      split_ifs <;> simp
  · rcases m2 with _ | md
    · exact Or.inl rfl
    · simp only [classifyItem2]
      split
      · exact Or.inl rfl
      · split
        · exact Or.inr (Or.inr rfl)
        · split_ifs <;> simp
  · simp only [classifyItem]
    rcases hAD : ((h == JsVal.vBool true) ||
        (JsVal.vStr s != JsVal.vUndef && JsVal.vStr s != JsVal.vNull &&
          JsVal.vStr s != JsVal.vStr "NA")) with _ | _
    · simp [hAD]
    · by_cases hse : s = ""
      · subst hse
        simp [hAD, JsVal.truthy, COLD_THRESHOLD]
      · simp [hAD, JsVal.truthy, hse, hpf, COLD_THRESHOLD]
  · simp only [classifyItem2, hh2, Bool.not_true, Bool.false_eq_true, if_false]
    simp [JsVal.truthy, hs2, htn]

/-- C10 witness. -/
theorem classifyItem_total_and_default_cold_witness :
    classifyItem (fun _ => none)
      (some { hasData := JsVal.vBool true, unitsSold := JsVal.vStr "abc" }) = "cold" ∧
    classifyItem2 (fun _ => none)
      (some { hasData := JsVal.vBool true, regularSaleVelocity := JsVal.vStr "xyz" }) =
      "hot" :=
  let r := classifyItem_total_and_default_cold (fun _ => none) (fun _ => none)
    none none (JsVal.vBool true) (JsVal.vBool true) [] [] "abc" "xyz"
    rfl rfl (by decide) (by decide)
  ⟨r.2.2.2.2.1, r.2.2.2.2.2⟩

/-! ## The item store (`database.js`): the `items` table as a row list

The SQLite table is modelled as a list of rows in rowid (insertion) order:
`INSERT` appends, `ON CONFLICT(id) DO UPDATE` rewrites in place.  JSON
round-tripping of the `number`, `req` and `marketData` columns is the
identity in this model. -/

/-- The `itemData` object handed to `upsertItem`.  Fields that JavaScript
callers may omit (so that the `||` defaults of `upsertItem` fire) are
`Option`s, with `none` playing `undefined`/`null`. -/
structure ItemRecord where
  id : ℕ
  name : String
  number : Option (List ℕ)
  req : Option (List String)
  marketData : Option MarketData
  classification : String
  lastUpdate : Option ℕ
  nextUpdate : Option ℕ
deriving DecidableEq, Repr

/-- `x || null` on an optional timestamp: `0`, `null` and `undefined` all
bind as SQL NULL (`itemData.lastUpdate || null`). -/
def orNull : Option ℕ → Option ℕ
  | none => none
  | some t => if t = 0 then none else some t

/-- `itemData.classification || 'cold'`. -/
def orCold (c : String) : String := if c = "" then "cold" else c

/-- `itemData.name || ('Item ' + id)`. -/
def defaultedName (name : String) (id : ℕ) : String :=
  if name = "" then "Item " ++ toString id else name

/-- JSON-parse of the empty object `'{}'` (the `marketData || \x7b\x7d`
default): both inspected fields read back `undefined`. -/
def emptyMarketData : MarketData :=
  { hasData := JsVal.vUndef, unitsSold := JsVal.vUndef }

/-- One row of the SQLite `items` table (`database.js` schema, lines 61-88).
`lastUpdate`/`nextUpdate` are nullable integers; `createdAt`/`updatedAt` are
the bookkeeping timestamps the SQL sets from `strftime`. -/
structure Row where
  id : ℕ
  name : String
  number : List ℕ
  req : List String
  marketData : MarketData
  classification : String
  lastUpdate : Option ℕ
  nextUpdate : Option ℕ
  createdAt : ℕ
  updatedAt : ℕ
deriving DecidableEq, Repr

/-- The row `upsertItem` binds for `itemData` (`database.js` lines 161-170),
with the source's `||` defaults applied; `now` is the clock `strftime`
reads. -/
def boundRow (itemData : ItemRecord) (now : ℕ) : Row :=
  { id := itemData.id
    name := defaultedName itemData.name itemData.id
    number := itemData.number.getD []
    req := itemData.req.getD []
    marketData := itemData.marketData.getD emptyMarketData
    classification := orCold itemData.classification
    lastUpdate := orNull itemData.lastUpdate
    nextUpdate := orNull itemData.nextUpdate
    createdAt := now
    updatedAt := now }

/-- `upsertItem` (`database.js` lines 144-174): `INSERT ... ON CONFLICT(id)
DO UPDATE`.  The conflict branch updates every column except `createdAt`. -/
def upsertItem (itemData : ItemRecord) (now : ℕ) (rows : List Row) : List Row :=
  if rows.any (fun r => r.id == itemData.id) then
    rows.map (fun r =>
      if r.id == itemData.id then { boundRow itemData now with createdAt := r.createdAt }
      else r)
  else rows ++ [boundRow itemData now]

/-- The object a read returns after JSON-parsing a row (`database.js` lines
191-200): every column except `createdAt`/`updatedAt`. -/
structure ItemView where
  id : ℕ
  name : String
  number : List ℕ
  req : List String
  marketData : MarketData
  classification : String
  lastUpdate : Option ℕ
  nextUpdate : Option ℕ
deriving DecidableEq, Repr

/-- Projection of a stored row to the object reads return. -/
def rowToView (r : Row) : ItemView :=
  { id := r.id, name := r.name, number := r.number, req := r.req,
    marketData := r.marketData, classification := r.classification,
    lastUpdate := r.lastUpdate, nextUpdate := r.nextUpdate }

/-- The view of the row `upsertItem` binds, independent of the write clock
(which only enters `createdAt`/`updatedAt`). -/
def recordView (itemData : ItemRecord) : ItemView :=
  rowToView (boundRow itemData 0)

/-- `getItemById` (`database.js` lines 181-202): `SELECT * WHERE id = ?`. -/
def getItemById (itemID : ℕ) (rows : List Row) : Option ItemView :=
  (rows.find? (fun r => r.id == itemID)).map rowToView

/-- `getAllItems` (`database.js` lines 208-224): `SELECT *`. -/
def getAllItems (rows : List Row) : List ItemView :=
  rows.map rowToView

/-- `getItemsByClassification` (`database.js` lines 231-247). -/
def getItemsByClassification (classification : String) (rows : List Row) : List ItemView :=
  (rows.filter (fun r => r.classification == classification)).map rowToView

/-- `getAllItemIds` (`database.js` lines 253-259): the set of stored ids
(modelled as the id list; only membership is consumed). -/
def getAllItemIds (rows : List Row) : List ℕ :=
  rows.map (fun r => r.id)

/-- `hasItem` (`database.js` lines 306-312): `COUNT(*) WHERE id = ? > 0`. -/
def hasItem (itemID : ℕ) (rows : List Row) : Bool :=
  rows.countP (fun r => r.id == itemID) > 0

/-- `getItemCount` (`database.js` lines 318-324). -/
def getItemCount (rows : List Row) : ℕ := rows.length

/-- The three id groups returned by the needing-update queries. -/
structure UpdateGroups where
  hot : List ℕ
  mild : List ℕ
  cold : List ℕ
deriving DecidableEq, Repr

/-- `nextUpdate IS NOT NULL AND nextUpdate <= now` for one row. -/
def rowDue (now : ℕ) (r : Row) : Bool :=
  match r.nextUpdate with
  | some t => decide (t ≤ now)
  | none => false

/-- `getItemsNeedingUpdate` of `database.js` (lines 266-299): the due rows,
grouped by their stored classification via the `switch` (a due row whose
classification is none of the three tiers lands in no group). -/
def dbGetItemsNeedingUpdate (now : ℕ) (rows : List Row) : UpdateGroups :=
  let due := rows.filter (rowDue now)
  { hot := (due.filter (fun r => r.classification == "hot")).map (fun r => r.id)
    mild := (due.filter (fun r => r.classification == "mild")).map (fun r => r.id)
    cold := (due.filter (fun r => r.classification == "cold")).map (fun r => r.id) }

/-! ## Claim C8: upsert idempotence -/

theorem upsertItem_mem_id_view (itemData : ItemRecord) (now : ℕ) (rows : List Row)
    (e : Row) (he : e ∈ upsertItem itemData now rows) (hid : e.id = itemData.id) :
    rowToView e = recordView itemData := by
  unfold upsertItem at he
  by_cases hany : rows.any (fun r => r.id == itemData.id)
  · rw [if_pos hany] at he
    obtain ⟨a, _, hfa⟩ := List.mem_map.mp he
    by_cases haid : (a.id == itemData.id) = true
    · rw [if_pos haid] at hfa
      rw [← hfa]
      rfl
    · rw [if_neg haid] at hfa
      rw [← hfa] at hid
      exact absurd (beq_iff_eq.mpr hid) haid
  · rw [if_neg hany] at he
    rcases List.mem_append.mp he with h1 | h2
    · exfalso
      exact hany (List.any_eq_true.mpr ⟨e, h1, beq_iff_eq.mpr hid⟩)
    · rw [List.mem_singleton.mp h2]
      rfl

theorem upsertItem_any_id (itemData : ItemRecord) (now : ℕ) (rows : List Row) :
    (upsertItem itemData now rows).any (fun r => r.id == itemData.id) = true := by
  unfold upsertItem
  by_cases hany : rows.any (fun r => r.id == itemData.id)
  · rw [if_pos hany]
    rw [List.any_eq_true] at hany ⊢
    obtain ⟨a, ha, hpa⟩ := hany
    exact ⟨_, List.mem_map.mpr ⟨a, ha, rfl⟩, by simp [hpa, boundRow]⟩
  · rw [if_neg hany]
    rw [List.any_eq_true]
    exact ⟨boundRow itemData now, List.mem_append.mpr (Or.inr (List.mem_singleton.mpr rfl)),
      by simp [boundRow]⟩

theorem upsertItem_twice_views (itemData : ItemRecord) (now1 now2 : ℕ) (rows : List Row) :
    (upsertItem itemData now2 (upsertItem itemData now1 rows)).map rowToView =
      (upsertItem itemData now1 rows).map rowToView := by
  have hany := upsertItem_any_id itemData now1 rows
  conv_lhs => rw [upsertItem]
  rw [if_pos hany, List.map_map]
  apply List.map_congr_left
  intro e he
  by_cases heid : (e.id == itemData.id) = true
  · have hv := upsertItem_mem_id_view itemData now1 rows e he (beq_iff_eq.mp heid)
    simp only [Function.comp_apply, if_pos heid]
    rw [hv]
    rfl
  · simp only [Function.comp_apply, if_neg heid]

theorem getItemById_congr_views (i : ℕ) (l1 l2 : List Row)
    (hm : l1.map rowToView = l2.map rowToView) :
    getItemById i l1 = getItemById i l2 := by
  induction l1 generalizing l2 with
  | nil =>
    cases l2 with
    | nil => rfl
    | cons b t => simp at hm
  | cons a t ih =>
    cases l2 with
    | nil => simp at hm
    | cons b t2 =>
      simp only [List.map_cons, List.cons.injEq] at hm
      obtain ⟨hab, ht⟩ := hm
      have hid : a.id = b.id := congrArg ItemView.id hab
      simp only [getItemById, List.find?_cons]
      cases hpa : (a.id == i) with
      | true =>
        have hpb : (b.id == i) = true := by rw [← hid]; exact hpa
        simp [hpa, hpb, hab]
      | false =>
        have hpb : (b.id == i) = false := by rw [← hid]; exact hpa
        simp only [hpa, hpb]
        exact ih t2 ht

theorem classFilter_congr_views (c : String) (l1 l2 : List Row)
    (hm : l1.map rowToView = l2.map rowToView) :
    getItemsByClassification c l1 = getItemsByClassification c l2 := by
  induction l1 generalizing l2 with
  | nil =>
    cases l2 with
    | nil => rfl
    | cons b t => simp at hm
  | cons a t ih =>
    cases l2 with
    | nil => simp at hm
    | cons b t2 =>
      simp only [List.map_cons, List.cons.injEq] at hm
      obtain ⟨hab, ht⟩ := hm
      have hc : a.classification = b.classification :=
        congrArg ItemView.classification hab
      simp only [getItemsByClassification, List.filter_cons]
      cases hpa : (a.classification == c) with
      | true =>
        have hpb : (b.classification == c) = true := by rw [← hc]; exact hpa
        simp only [hpa, hpb, if_true, List.map_cons, hab]
        have := ih t2 ht
        simp only [getItemsByClassification] at this
        rw [this]
      | false =>
        have hpb : (b.classification == c) = false := by rw [← hc]; exact hpa
        simp only [hpa, hpb, Bool.false_eq_true, if_false]
        exact ih t2 ht

theorem dueClassFilter_congr_views (now : ℕ) (c : String) (l1 l2 : List Row)
    (hm : l1.map rowToView = l2.map rowToView) :
    ((l1.filter (rowDue now)).filter (fun r => r.classification == c)).map (fun r => r.id) =
      ((l2.filter (rowDue now)).filter (fun r => r.classification == c)).map
        (fun r => r.id) := by
  induction l1 generalizing l2 with
  | nil =>
    cases l2 with
    | nil => rfl
    | cons b t => simp at hm
  | cons a t ih =>
    cases l2 with
    | nil => simp at hm
    | cons b t2 =>
      simp only [List.map_cons, List.cons.injEq] at hm
      obtain ⟨hab, ht⟩ := hm
      have hnu : a.nextUpdate = b.nextUpdate := congrArg ItemView.nextUpdate hab
      have hc : a.classification = b.classification :=
        congrArg ItemView.classification hab
      have hid : a.id = b.id := congrArg ItemView.id hab
      have hdue : rowDue now a = rowDue now b := by unfold rowDue; rw [hnu]
      simp only [List.filter_cons]
      cases hda : rowDue now a with
      | true =>
        have hdb : rowDue now b = true := by rw [← hdue]; exact hda
        simp only [hda, hdb, if_true, List.filter_cons]
        cases hpa : (a.classification == c) with
        | true =>
          have hpb : (b.classification == c) = true := by rw [← hc]; exact hpa
          simp only [hpa, hpb, if_true, List.map_cons, hid]
          rw [ih t2 ht]
        | false =>
          have hpb : (b.classification == c) = false := by rw [← hc]; exact hpa
          simp only [hpa, hpb, Bool.false_eq_true, if_false]
          exact ih t2 ht
      | false =>
        have hdb : rowDue now b = false := by rw [← hdue]; exact hda
        simp only [hda, hdb, Bool.false_eq_true, if_false]
        exact ih t2 ht

theorem needingUpdate_congr_views (now : ℕ) (l1 l2 : List Row)
    (hm : l1.map rowToView = l2.map rowToView) :
    dbGetItemsNeedingUpdate now l1 = dbGetItemsNeedingUpdate now l2 := by
  unfold dbGetItemsNeedingUpdate
  have h1 := dueClassFilter_congr_views now "hot" l1 l2 hm
  have h2 := dueClassFilter_congr_views now "mild" l1 l2 hm
  have h3 := dueClassFilter_congr_views now "cold" l1 l2 hm
  simp only [h1, h2, h3]

/-- C8: upsert is idempotent up to observation.  Writing the same
`ItemRecord` twice in a row (at arbitrary wall-clock instants `now1`, `now2`)
leaves the store in the same state as writing it once, as seen through
`getItemById`, `getAllItems`, `getItemsByClassification` and
`getItemsNeedingUpdate`; only the unobserved `updatedAt` bookkeeping column
can differ. -/
theorem upsertItem_idempotent (itemData : ItemRecord) (now1 now2 : ℕ) (rows : List Row) :
    (∀ itemID,
      getItemById itemID (upsertItem itemData now2 (upsertItem itemData now1 rows)) =
        getItemById itemID (upsertItem itemData now1 rows)) ∧
    getAllItems (upsertItem itemData now2 (upsertItem itemData now1 rows)) =
      getAllItems (upsertItem itemData now1 rows) ∧
    (∀ c,
      getItemsByClassification c (upsertItem itemData now2 (upsertItem itemData now1 rows)) =
        getItemsByClassification c (upsertItem itemData now1 rows)) ∧
    (∀ now,
      dbGetItemsNeedingUpdate now (upsertItem itemData now2 (upsertItem itemData now1 rows)) =
        dbGetItemsNeedingUpdate now (upsertItem itemData now1 rows)) := by
  have hm := upsertItem_twice_views itemData now1 now2 rows
  exact ⟨fun itemID => getItemById_congr_views itemID _ _ hm, hm,
    fun c => classFilter_congr_views c _ _ hm,
    fun now => needingUpdate_congr_views now _ _ hm⟩

/-! ## The orchestrator (`itemManager.js`, first variant) -/

/-- One entry of `itemlist.json`, the static catalog.  `number` and `req`
may be absent in the JSON (`itemInfo?.number || []`). -/
structure ItemInfo where
  id : ℕ
  name : String
  number : Option (List ℕ)
  req : Option (List String)
deriving DecidableEq, Repr

/-- The `itemData` object `processAndStoreItem` builds (`itemManager.js`
lines 117-145).  The `hasActualData` test there additionally requires
`typeof unitsSold === 'number'`, which subsumes the three inequality checks,
and the result is written back into the snapshot's `hasData` field before
classification.  `deepCopy` is the identity in this pure model. -/
def mkItemRecord (pf : String → Option ℚ) (itemID : ℕ) (marketInfo : MarketData)
    (itemInfo : Option ItemInfo) (now : ℕ) : ItemRecord :=
  let hasActualData : Bool :=
    (marketInfo.hasData == JsVal.vBool true) || marketInfo.unitsSold.isNumber
  let marketInfo2 : MarketData := { marketInfo with hasData := JsVal.vBool hasActualData }
  let classification := classifyItem pf (some marketInfo2)
  let updateInterval := getUpdateInterval classification
  { id := itemID
    name := defaultedName ((itemInfo.map ItemInfo.name).getD "") itemID
    number := some ((itemInfo.bind ItemInfo.number).getD [])
    req := some ((itemInfo.bind ItemInfo.req).getD [])
    marketData := some marketInfo2
    classification := classification
    lastUpdate := some now
    nextUpdate := some (now + updateInterval) }

/-- `processAndStoreItem` (`itemManager.js` lines 117-149): build the record
and store it immediately via `upsertItem`. -/
def processAndStoreItem (pf : String → Option ℚ) (itemID : ℕ) (marketInfo : MarketData)
    (itemInfo : Option ItemInfo) (now : ℕ) (rows : List Row) : List Row :=
  upsertItem (mkItemRecord pf itemID marketInfo itemInfo now) now rows

/-- C4: every write performed by the update path establishes
`nextUpdate = lastUpdate + interval(classification)`: the record
`processAndStoreItem` hands to `upsertItem` always carries
`lastUpdate = now` and `nextUpdate = now + getUpdateInterval(classification)`
with the classification just computed, and the update path performs no other
kind of write. -/
theorem processAndStoreItem_nextUpdate (pf : String → Option ℚ) (itemID : ℕ)
    (marketInfo : MarketData) (itemInfo : Option ItemInfo) (now : ℕ) (rows : List Row) :
    (mkItemRecord pf itemID marketInfo itemInfo now).lastUpdate = some now ∧
    (mkItemRecord pf itemID marketInfo itemInfo now).nextUpdate =
      some (now +
        getUpdateInterval (mkItemRecord pf itemID marketInfo itemInfo now).classification) ∧
    processAndStoreItem pf itemID marketInfo itemInfo now rows =
      upsertItem (mkItemRecord pf itemID marketInfo itemInfo now) now rows :=
  ⟨rfl, rfl, rfl⟩

/-- `getItemsNeedingUpdate` of `itemManager.js` (lines 210-228): the due
groups from the database, plus every catalog id with no stored record,
appended to the `cold` group. -/
def getItemsNeedingUpdate (itemList : List ItemInfo) (now : ℕ) (rows : List Row) :
    UpdateGroups :=
  let dbItems := dbGetItemsNeedingUpdate now rows
  let fetchedItemIDs := getAllItemIds rows
  let unfetchedItems :=
    (itemList.map (fun info => info.id)).filter (fun id => !(fetchedItemIDs.contains id))
  { hot := dbItems.hot
    mild := dbItems.mild
    cold := dbItems.cold ++ unfetchedItems }

/-- C5: `getItemsNeedingUpdate` always includes every catalog id that has no
stored record, in the `cold` group (whatever `now` is); and every stored row
whose `nextUpdate` has passed appears in the group named by its stored
classification. -/
theorem getItemsNeedingUpdate_complete (itemList : List ItemInfo) (now : ℕ)
    (rows : List Row) :
    (∀ info ∈ itemList, (∀ r ∈ rows, r.id ≠ info.id) →
      info.id ∈ (getItemsNeedingUpdate itemList now rows).cold) ∧
    (∀ r ∈ rows, ∀ t, r.nextUpdate = some t → t ≤ now →
      (r.classification = "hot" → r.id ∈ (getItemsNeedingUpdate itemList now rows).hot) ∧
      (r.classification = "mild" → r.id ∈ (getItemsNeedingUpdate itemList now rows).mild) ∧
      (r.classification = "cold" →
        r.id ∈ (getItemsNeedingUpdate itemList now rows).cold)) := by
  constructor
  · intro info hinfo hnone
    simp only [getItemsNeedingUpdate]
    refine List.mem_append.mpr (Or.inr ?_)
    refine List.mem_filter.mpr ⟨List.mem_map.mpr ⟨info, hinfo, rfl⟩, ?_⟩
    simp only [getAllItemIds, Bool.not_eq_eq_eq_not, Bool.not_true, List.contains_eq_any_beq,
      List.any_eq_false]
    intro x hx
    obtain ⟨r, hr, hrx⟩ := List.mem_map.mp hx
    subst hrx
    exact fun hcontra => hnone r hr (beq_iff_eq.mp hcontra).symm
  · intro r hr t ht htle
    have hdue : rowDue now r = true := by
      unfold rowDue
      rw [ht]
      simpa using htle
    have hmemdue : r ∈ rows.filter (rowDue now) := List.mem_filter.mpr ⟨hr, hdue⟩
    refine ⟨?_, ?_, ?_⟩ <;> intro hcl
    · exact List.mem_map.mpr ⟨r, List.mem_filter.mpr ⟨hmemdue, by simp [hcl]⟩, rfl⟩
    · exact List.mem_map.mpr ⟨r, List.mem_filter.mpr ⟨hmemdue, by simp [hcl]⟩, rfl⟩
    · refine List.mem_append.mpr (Or.inl ?_)
      exact List.mem_map.mpr ⟨r, List.mem_filter.mpr ⟨hmemdue, by simp [hcl]⟩, rfl⟩

/-- C5 witness. -/
theorem getItemsNeedingUpdate_complete_witness :
    (7 : ℕ) ∈ (getItemsNeedingUpdate [⟨7, "gadget", none, none⟩] 10
      [⟨3, "x", [], [], emptyMarketData, "hot", some 1, some 5, 1, 1⟩]).cold ∧
    (3 : ℕ) ∈ (getItemsNeedingUpdate [⟨7, "gadget", none, none⟩] 10
      [⟨3, "x", [], [], emptyMarketData, "hot", some 1, some 5, 1, 1⟩]).hot :=
  let thm := getItemsNeedingUpdate_complete [⟨7, "gadget", none, none⟩] 10
    [⟨3, "x", [], [], emptyMarketData, "hot", some 1, some 5, 1, 1⟩]
  ⟨thm.1 ⟨7, "gadget", none, none⟩ (List.mem_singleton.mpr rfl)
      (by intro r hr; rw [List.mem_singleton.mp hr]; decide),
    (thm.2 ⟨3, "x", [], [], emptyMarketData, "hot", some 1, some 5, 1, 1⟩
      (List.mem_singleton.mpr rfl) 5 rfl (by norm_num)).1 rfl⟩

/-! ## Claim C3: batched refresh tolerates one failing batch -/

/-- `MAX_ITEMS_PER_CALL` of the rate-limited client (`database.js` bundle,
line 364). -/
def MAX_ITEMS_PER_CALL : ℕ := 5

/-- The batch slicing of `updateItems` (`itemManager.js` lines 169-172):
consecutive slices of at most `MAX_ITEMS_PER_CALL` ids. -/
def splitBatches (itemIDs : List ℕ) : List (List ℕ) :=
  if h : itemIDs.isEmpty then []
  else itemIDs.take MAX_ITEMS_PER_CALL :: splitBatches (itemIDs.drop MAX_ITEMS_PER_CALL)
termination_by itemIDs.length
decreasing_by
  simp only [List.length_drop]
  have hpos : 0 < itemIDs.length := by
    cases itemIDs with
    | nil => simp at h
    | cons a t => simp
  exact Nat.sub_lt hpos (by norm_num [MAX_ITEMS_PER_CALL])

/-- An upstream response body, in one of the two shapes `updateItems`
recognizes (lines 182-184): single-item (`itemID` field present, the
response itself being the snapshot) or multi-item (`items` map). -/
inductive BatchData where
  | single (itemID : ℕ) (data : MarketData)
  | multi (items : List (ℕ × MarketData))
deriving DecidableEq, Repr

/-- The `itemsToProcess[itemID]` lookup of `updateItems` (lines 182-189; the
`String(itemID)`/`Number(itemID)` fallbacks are JavaScript key coercion,
collapsed by keying on numbers). -/
def itemsToProcess (b : BatchData) (itemID : ℕ) : Option MarketData :=
  match b with
  | .single i d => if i == itemID then some d else none
  | .multi items => (items.find? (fun kv => kv.1 == itemID)).map (fun kv => kv.2)

/-- The per-id loop inside one batch iteration (lines 187-194): every id of
the batch that appears in the response is classified and upserted at once. -/
def processBatchItems (pf : String → Option ℚ) (batchData : BatchData)
    (itemList : List ItemInfo) (now : ℕ) (rows : List Row) (batch : List ℕ) : List Row :=
  batch.foldl (fun acc itemID =>
    match itemsToProcess batchData itemID with
    | some marketInfo =>
      processAndStoreItem pf itemID marketInfo
        (itemList.find? (fun info => info.id == itemID)) now acc
    | none => acc) rows

/-- One iteration of the batch loop of `updateItems` (lines 175-198): fetch
the batch through `fetchMarketData`; on success upsert its returned items, on
failure log and leave the store untouched, continuing with the next batch. -/
def runBatch (pf : String → Option ℚ) (fetchOracle : List ℕ → Except String BatchData)
    (itemList : List ItemInfo) (now : ℕ) (rows : List Row) (batch : List ℕ) : List Row :=
  match fetchOracle batch with
  | .error _ => rows
  | .ok batchData => processBatchItems pf batchData itemList now rows batch

/-- `updateItems` (`itemManager.js` lines 160-204), the network modelled by
the `fetchOracle` parameter and the wall clock by `now`. -/
def updateItems (pf : String → Option ℚ) (fetchOracle : List ℕ → Except String BatchData)
    (itemList : List ItemInfo) (now : ℕ) (itemIDs : List ℕ) (rows : List Row) : List Row :=
  if itemIDs.isEmpty then rows
  else (splitBatches itemIDs).foldl (runBatch pf fetchOracle itemList now) rows

theorem updateItems_eq_foldl (pf : String → Option ℚ)
    (fetchOracle : List ℕ → Except String BatchData) (itemList : List ItemInfo)
    (now : ℕ) (itemIDs : List ℕ) (rows : List Row) :
    updateItems pf fetchOracle itemList now itemIDs rows =
      (splitBatches itemIDs).foldl (runBatch pf fetchOracle itemList now) rows := by
  unfold updateItems
  by_cases h : itemIDs.isEmpty
  · rw [if_pos h, splitBatches, dif_pos h]
    rfl
  · rw [if_neg h]

theorem splitBatches_flatten (itemIDs : List ℕ) :
    (splitBatches itemIDs).flatten = itemIDs := by
  rw [splitBatches]
  by_cases h : itemIDs.isEmpty
  · rw [dif_pos h, List.isEmpty_iff.mp h]
    rfl
  · rw [dif_neg h, List.flatten_cons,
      splitBatches_flatten (itemIDs.drop MAX_ITEMS_PER_CALL), List.take_append_drop]
termination_by itemIDs.length
decreasing_by
  simp only [List.length_drop]
  have hpos : 0 < itemIDs.length := by
    cases itemIDs with
    | nil => simp at h
    | cons a t => simp
  exact Nat.sub_lt hpos (by norm_num [MAX_ITEMS_PER_CALL])

theorem getItemById_upsert_other (itemData : ItemRecord) (now : ℕ) (rows : List Row)
    (j : ℕ) (hj : j ≠ itemData.id) :
    getItemById j (upsertItem itemData now rows) = getItemById j rows := by
  unfold upsertItem getItemById
  by_cases hany : rows.any (fun r => r.id == itemData.id)
  · rw [if_pos hany]
    clear hany
    congr 1
    induction rows with
    | nil => rfl
    | cons a t ih =>
      simp only [List.map_cons, List.find?_cons]
      by_cases haid : (a.id == itemData.id) = true
      · rw [if_pos haid]
        have h1 : (({ boundRow itemData now with createdAt := a.createdAt } : Row).id == j) =
            false := beq_eq_false_iff_ne.mpr (Ne.symm hj)
        have h2 : (a.id == j) = false :=
          beq_eq_false_iff_ne.mpr (fun hc => hj (hc.symm.trans (beq_iff_eq.mp haid)))
        simp only [h1, h2]
        exact ih
      · rw [if_neg haid]
        cases hpa : (a.id == j) with
        | true => simp only [hpa]
        | false =>
          simp only [hpa]
          exact ih
  · rw [if_neg hany]
    congr 1
    rw [List.find?_append]
    have hb : ((boundRow itemData now).id == j) = false :=
      beq_eq_false_iff_ne.mpr (Ne.symm hj)
    simp [List.find?_cons, hb]

theorem getItemById_upsert_self (itemData : ItemRecord) (now : ℕ) (rows : List Row) :
    getItemById itemData.id (upsertItem itemData now rows) = some (recordView itemData) := by
  unfold upsertItem getItemById
  by_cases hany : rows.any (fun r => r.id == itemData.id)
  · rw [if_pos hany]
    revert hany
    induction rows with
    | nil => intro hany; simp at hany
    | cons a t ih =>
      intro hany
      simp only [List.any_cons, Bool.or_eq_true] at hany
      simp only [List.map_cons, List.find?_cons]
      by_cases haid : (a.id == itemData.id) = true
      · rw [if_pos haid]
        have h1 : (({ boundRow itemData now with createdAt := a.createdAt } : Row).id ==
            itemData.id) = true := beq_self_eq_true itemData.id
        simp only [h1]
        rfl
      · rw [if_neg haid]
        have h2 : (a.id == itemData.id) = false := by
          cases hpa : (a.id == itemData.id) with
          | true => exact absurd hpa haid
          | false => rfl
        simp only [h2]
        rcases hany with h3 | h3
        · exact absurd h3 haid
        · exact ih h3
  · rw [if_neg hany]
    rw [List.find?_append]
    have hnone : rows.find? (fun r => r.id == itemData.id) = none :=
      List.find?_eq_none.mpr (fun x hx hpx => hany (List.any_eq_true.mpr ⟨x, hx, hpx⟩))
    rw [hnone]
    have hb : ((boundRow itemData now).id == itemData.id) = true := beq_iff_eq.mpr rfl
    simp only [Option.none_or, List.find?_cons, hb]
    rfl

theorem processBatchItems_preserve (pf : String → Option ℚ) (batchData : BatchData)
    (itemList : List ItemInfo) (now : ℕ) (batch : List ℕ) (rows : List Row)
    (id : ℕ) (hid : id ∉ batch) :
    getItemById id (processBatchItems pf batchData itemList now rows batch) =
      getItemById id rows := by
  induction batch generalizing rows with
  | nil => rfl
  | cons x xs ih =>
    have hx : id ≠ x := fun hc => hid (hc ▸ List.mem_cons_self x xs)
    have hxs : id ∉ xs := fun hc => hid (List.mem_cons_of_mem x hc)
    unfold processBatchItems
    rw [List.foldl_cons]
    cases hlu : itemsToProcess batchData x with
    | none =>
      simp only [hlu]
      exact ih rows hxs
    | some mi =>
      simp only [hlu]
      have hstep := getItemById_upsert_other
        (mkItemRecord pf x mi (itemList.find? (fun info => info.id == x)) now) now rows id hx
      exact (ih _ hxs).trans hstep

theorem processBatchItems_write (pf : String → Option ℚ) (batchData : BatchData)
    (itemList : List ItemInfo) (now : ℕ) (batch : List ℕ) (rows : List Row)
    (id : ℕ) (mi : MarketData) (hnd : batch.Nodup) (hid : id ∈ batch)
    (hmi : itemsToProcess batchData id = some mi) :
    getItemById id (processBatchItems pf batchData itemList now rows batch) =
      some (recordView (mkItemRecord pf id mi
        (itemList.find? (fun info => info.id == id)) now)) := by
  revert hnd hid
  induction batch generalizing rows with
  | nil =>
    intro hnd hid
    simp at hid
  | cons x xs ih =>
    intro hnd hid
    unfold processBatchItems
    rw [List.foldl_cons]
    rcases List.mem_cons.mp hid with hx | hxs
    · subst hx
      simp only [hmi]
      have hnotxs : id ∉ xs := (List.nodup_cons.mp hnd).1
      have hpres := processBatchItems_preserve pf batchData itemList now xs
        (processAndStoreItem pf id mi (itemList.find? (fun info => info.id == id)) now rows)
        id hnotxs
      exact hpres.trans (getItemById_upsert_self
        (mkItemRecord pf id mi (itemList.find? (fun info => info.id == id)) now) now rows)
    · cases hlu : itemsToProcess batchData x with
      | none =>
        simp only [hlu]
        exact ih _ (List.nodup_cons.mp hnd).2 hxs
      | some mi2 =>
        simp only [hlu]
        exact ih _ (List.nodup_cons.mp hnd).2 hxs

theorem runBatch_preserve (pf : String → Option ℚ)
    (fetchOracle : List ℕ → Except String BatchData) (itemList : List ItemInfo)
    (now : ℕ) (batch : List ℕ) (rows : List Row) (id : ℕ)
    (h : id ∉ batch ∨ ∃ e, fetchOracle batch = Except.error e) :
    getItemById id (runBatch pf fetchOracle itemList now rows batch) =
      getItemById id rows := by
  unfold runBatch
  cases hf : fetchOracle batch with
  | error e => rfl
  | ok bd =>
    rcases h with hnm | ⟨e, he⟩
    · exact processBatchItems_preserve pf bd itemList now batch rows id hnm
    · rw [hf] at he
      cases he

theorem foldBatches_preserve (pf : String → Option ℚ)
    (fetchOracle : List ℕ → Except String BatchData) (itemList : List ItemInfo)
    (now : ℕ) (bs : List (List ℕ)) (rows : List Row) (id : ℕ)
    (h : ∀ b ∈ bs, id ∉ b ∨ ∃ e, fetchOracle b = Except.error e) :
    getItemById id (bs.foldl (runBatch pf fetchOracle itemList now) rows) =
      getItemById id rows := by
  induction bs generalizing rows with
  | nil => rfl
  | cons b bs2 ih =>
    rw [List.foldl_cons]
    exact (ih _ (fun b' hb' => h b' (List.mem_cons_of_mem b hb'))).trans
      (runBatch_preserve pf fetchOracle itemList now b rows id (h b (List.mem_cons_self b bs2)))

/-- C3: one failing batch cannot abort a refresh.  Splitting distinct ids
into batches, if the fetch of batch `k` fails then (a) the stored record of
every id of batch `k` is exactly what it was before the `updateItems` call,
and (b) every other batch whose fetch succeeds still has each of its
returned items classified and upserted: its ids read back as the freshly
built record. -/
theorem updateItems_batch_failure_isolation (pf : String → Option ℚ)
    (fetchOracle : List ℕ → Except String BatchData) (itemList : List ItemInfo)
    (now : ℕ) (itemIDs : List ℕ) (rows : List Row)
    (hnd : itemIDs.Nodup) (k : ℕ) (hk : k < (splitBatches itemIDs).length)
    (err : String)
    (hfail : fetchOracle ((splitBatches itemIDs).get ⟨k, hk⟩) = Except.error err) :
    (∀ id ∈ (splitBatches itemIDs).get ⟨k, hk⟩,
      getItemById id (updateItems pf fetchOracle itemList now itemIDs rows) =
        getItemById id rows) ∧
    (∀ j (hj : j < (splitBatches itemIDs).length), j ≠ k →
      ∀ bd, fetchOracle ((splitBatches itemIDs).get ⟨j, hj⟩) = Except.ok bd →
      ∀ id ∈ (splitBatches itemIDs).get ⟨j, hj⟩, ∀ mi, itemsToProcess bd id = some mi →
      getItemById id (updateItems pf fetchOracle itemList now itemIDs rows) =
        some (recordView (mkItemRecord pf id mi
          (itemList.find? (fun info => info.id == id)) now))) := by
  have hflat : (splitBatches itemIDs).flatten.Nodup := by
    rw [splitBatches_flatten]
    exact hnd
  obtain ⟨hbnd, hdisj⟩ := List.nodup_flatten.mp hflat
  have hpair := List.pairwise_iff_getElem.mp hdisj
  constructor
  · intro id hid
    rw [updateItems_eq_foldl]
    apply foldBatches_preserve
    intro b hb
    obtain ⟨m, hm, hbm⟩ := List.mem_iff_getElem.mp hb
    by_cases hmk : m = k
    · subst hmk
      right
      refine ⟨err, ?_⟩
      rw [← hbm]
      simpa using hfail
    · left
      intro hidb
      rcases Nat.lt_or_ge m k with hlt | hge
      · exact hpair m k hm hk hlt (hbm ▸ hidb) (by simpa using hid)
      · have hlt2 : k < m := lt_of_le_of_ne hge (fun hc => hmk hc.symm)
        exact hpair k m hk hm hlt2 (by simpa using hid) (hbm ▸ hidb)
  · intro j hj hjk bd hok id hid mi hmi
    rw [updateItems_eq_foldl]
    have hsplit : splitBatches itemIDs =
        (splitBatches itemIDs).take j ++
          (splitBatches itemIDs)[j] :: (splitBatches itemIDs).drop (j + 1) := by
      have h1 := List.take_append_drop j (splitBatches itemIDs)
      rw [List.drop_eq_getElem_cons hj] at h1
      exact h1.symm
    rw [hsplit, List.foldl_append, List.foldl_cons]
    have hpost : ∀ b ∈ (splitBatches itemIDs).drop (j + 1), id ∉ b ∨
        ∃ e, fetchOracle b = Except.error e := by
      intro b hb
      left
      obtain ⟨m, hm, hbm⟩ := List.mem_iff_getElem.mp hb
      rw [List.getElem_drop] at hbm
      intro hidb
      have hmlen : j + 1 + m < (splitBatches itemIDs).length := by
        have := hm
        simp only [List.length_drop] at this
        omega
      exact hpair j (j + 1 + m) hj hmlen (by omega) (by simpa using hid) (hbm ▸ hidb)
    rw [foldBatches_preserve pf fetchOracle itemList now _ _ id hpost]
    have hrun : runBatch pf fetchOracle itemList now
        ((splitBatches itemIDs).take j |>.foldl (runBatch pf fetchOracle itemList now) rows)
        ((splitBatches itemIDs)[j]) =
        processBatchItems pf bd itemList now
          ((splitBatches itemIDs).take j |>.foldl (runBatch pf fetchOracle itemList now) rows)
          ((splitBatches itemIDs)[j]) := by
      unfold runBatch
      rw [show fetchOracle ((splitBatches itemIDs)[j]) = Except.ok bd from by simpa using hok]
    rw [hrun]
    exact processBatchItems_write pf bd itemList now _ _ id mi
      (hbnd _ (List.getElem_mem hj)) (by simpa using hid) hmi

/-- Concrete evaluation of the batch split used by the C3 witness. -/
theorem splitBatches_six : splitBatches [1, 2, 3, 4, 5, 6] = [[1, 2, 3, 4, 5], [6]] := by
  simp [splitBatches, MAX_ITEMS_PER_CALL]

/-- The fetch oracle of the C3 witness: batch `[6]` succeeds with a hot
snapshot for id 6, every other batch fails. -/
def witnessOracle : List ℕ → Except String BatchData :=
  fun b =>
    if b == [6] then
      Except.ok (BatchData.multi [(6, { hasData := JsVal.vBool true, unitsSold := JsVal.vNum 1500 })])
    else Except.error "boom"

/-- The initial store of the C3 witness: one stale record for id 1. -/
def witnessRows : List Row :=
  [⟨1, "old", [], [], emptyMarketData, "cold", some 1, some 2, 1, 1⟩]

/-- C3 witness. -/
theorem updateItems_batch_failure_isolation_witness :
    getItemById 1 (updateItems (fun _ => none) witnessOracle [] 77 [1, 2, 3, 4, 5, 6]
        witnessRows) = getItemById 1 witnessRows ∧
    getItemById 6 (updateItems (fun _ => none) witnessOracle [] 77 [1, 2, 3, 4, 5, 6]
        witnessRows) =
      some (recordView (mkItemRecord (fun _ => none) 6
        { hasData := JsVal.vBool true, unitsSold := JsVal.vNum 1500 } none 77)) := by
  have hk : 0 < (splitBatches [1, 2, 3, 4, 5, 6]).length := by
    rw [splitBatches_six]
    norm_num
  have hj : 1 < (splitBatches [1, 2, 3, 4, 5, 6]).length := by
    rw [splitBatches_six]
    norm_num
  have hfail : witnessOracle ((splitBatches [1, 2, 3, 4, 5, 6]).get ⟨0, hk⟩) =
      Except.error "boom" := by
    simp [splitBatches_six, witnessOracle]
  have thm := updateItems_batch_failure_isolation (fun _ => none) witnessOracle [] 77
    [1, 2, 3, 4, 5, 6] witnessRows (by decide) 0 hk "boom" hfail
  refine ⟨thm.1 1 ?_, ?_⟩
  · simp [splitBatches_six]
  · have hok : witnessOracle ((splitBatches [1, 2, 3, 4, 5, 6]).get ⟨1, hj⟩) =
        Except.ok (BatchData.multi
          [(6, { hasData := JsVal.vBool true, unitsSold := JsVal.vNum 1500 })]) := by
      simp [splitBatches_six, witnessOracle]
    have hmem : (6 : ℕ) ∈ (splitBatches [1, 2, 3, 4, 5, 6]).get ⟨1, hj⟩ := by
      simp [splitBatches_six]
    exact thm.2 1 hj (by norm_num)
      (BatchData.multi [(6, { hasData := JsVal.vBool true, unitsSold := JsVal.vNum 1500 })])
      hok 6 hmem
      { hasData := JsVal.vBool true, unitsSold := JsVal.vNum 1500 }
      (by decide)

/-! ## Claim C6: the rate-limited fetch queue

`UniversalisRequestQueue` (`database.js` bundle, lines 373-442).  `enqueue`
pushes onto `this.queue` and `processQueue` drains it with `shift()` inside a
single non-re-entrant loop, so thunks run one at a time in insertion order;
the drain loop is sequential, which the timeline recursion below mirrors
exactly.  Each thunk is paired with its sampled jitter and its execution
duration. -/

/-- `BASE_DELAY_BETWEEN_CALLS_MS` (line 365). -/
def BASE_DELAY_BETWEEN_CALLS_MS : ℕ := 1000

/-- `RANDOM_DELAY_MAX_MS` (line 366). -/
def RANDOM_DELAY_MAX_MS : ℕ := 500

/-- `getRandomizedDelay` (lines 385-388): base delay plus the sampled
jitter (`Math.floor(Math.random() * RANDOM_DELAY_MAX_MS)`). -/
def getRandomizedDelay (baseDelay jitter : ℕ) : ℕ := baseDelay + jitter

/-- The drain loop `processQueue` (lines 405-438) as a timeline.  `t` is the
current clock, `lastRequestTime` the instant the previous request settled (0
initially).  Before issuing a thunk the loop sleeps the remainder of
`requiredDelay = getRandomizedDelay baseDelay jitter` measured from
`lastRequestTime`; after the thunk settles (fulfilled or rejected)
`lastRequestTime` is set to the completion instant.  Returns the
(start, completion) instants of each thunk, in execution = insertion
order. -/
def processQueue (baseDelay : ℕ) : ℕ → ℕ → List (ℕ × ℕ) → List (ℕ × ℕ)
  | _, _, [] => []
  | t, lastRequestTime, (jitter, duration) :: rest =>
    let requiredDelay := getRandomizedDelay baseDelay jitter
    let start :=
      if t - lastRequestTime < requiredDelay then lastRequestTime + requiredDelay else t
    let finish := start + duration
    (start, finish) :: processQueue baseDelay finish finish rest

theorem processQueue_length (baseDelay : ℕ) (thunks : List (ℕ × ℕ)) :
    ∀ t last, (processQueue baseDelay t last thunks).length = thunks.length := by
  induction thunks with
  | nil => intro t last; rfl
  | cons x rest ih =>
    intro t last
    cases x with
    | mk j d => simp only [processQueue, List.length_cons, ih]

theorem processQueue_chain (baseDelay : ℕ) (thunks : List (ℕ × ℕ)) :
    ∀ t last, List.Chain'
      (fun a b => a.2 + baseDelay ≤ b.1 ∧ a.1 + baseDelay ≤ b.1)
      (processQueue baseDelay t last thunks) := by
  induction thunks with
  | nil => intro t last; exact List.chain'_nil
  | cons x rest ih =>
    intro t last
    cases x with
    | mk j d =>
    apply List.chain'_cons'.mpr
    refine ⟨?_, ih _ _⟩
    intro b hb
    cases rest with
    | nil => simp [processQueue] at hb
    | cons y rest2 =>
      cases y with
      | mk j2 d2 =>
      simp only [processQueue, List.head?_cons, Option.mem_def, Option.some.injEq] at hb
      rw [← hb]
      simp only [getRandomizedDelay]
      constructor <;> (split_ifs <;> omega)

theorem processQueue_required_spacing (baseDelay : ℕ) (thunks : List (ℕ × ℕ)) :
    ∀ t last k (p q jd : ℕ × ℕ),
    (processQueue baseDelay t last thunks).get? k = some p →
    (processQueue baseDelay t last thunks).get? (k + 1) = some q →
    thunks.get? (k + 1) = some jd →
    p.2 + baseDelay + jd.1 ≤ q.1 := by
  induction thunks with
  | nil =>
    intro t last k p q jd hp hq hjd
    simp [processQueue] at hp
  | cons x rest ih =>
    intro t last k p q jd hp hq hjd
    cases x with
    | mk j d =>
    cases k with
    | zero =>
      cases rest with
      | nil =>
        simp [processQueue] at hq
      | cons y rest2 =>
        cases y with
        | mk j2 d2 =>
        simp only [processQueue, List.get?_cons_zero, List.get?_cons_succ,
          Option.some.injEq] at hp hq hjd
        rw [← hp, ← hq, ← hjd]
        simp only [getRandomizedDelay]
        split_ifs <;> omega
    | succ k2 =>
      simp only [processQueue, List.get?_cons_succ] at hp hq hjd
      exact ih _ _ k2 p q jd hp hq hjd

/-- C6: the queue drains in FIFO order (one timeline entry per enqueued
thunk, in insertion order) and rate-limits: each thunk starts only after at
least `requiredDelay = baseDelay + jitter` has elapsed since the previous
thunk settled (so consecutive thunks are at least `baseDelay` apart, both
completion-to-start and start-to-start, whatever the durations); in
particular with `baseDelay = 1000` and no jitter, the second of two thunks
starts at least 1000 ms after the first one's start. -/
theorem processQueue_fifo_rate_limited (baseDelay t0 last0 : ℕ)
    (thunks : List (ℕ × ℕ)) :
    (processQueue baseDelay t0 last0 thunks).length = thunks.length ∧
    List.Chain' (fun a b => a.2 + baseDelay ≤ b.1 ∧ a.1 + baseDelay ≤ b.1)
      (processQueue baseDelay t0 last0 thunks) ∧
    (∀ k (p q jd : ℕ × ℕ),
      (processQueue baseDelay t0 last0 thunks).get? k = some p →
      (processQueue baseDelay t0 last0 thunks).get? (k + 1) = some q →
      thunks.get? (k + 1) = some jd →
      p.2 + baseDelay + jd.1 ≤ q.1) ∧
    (∀ u d1 d2 : ℕ, ∃ s1 f1 s2 f2,
      processQueue 1000 u 0 [(0, d1), (0, d2)] = [(s1, f1), (s2, f2)] ∧
      s1 + 1000 ≤ s2) := by
  refine ⟨processQueue_length baseDelay thunks t0 last0,
    processQueue_chain baseDelay thunks t0 last0,
    fun k p q jd hp hq hjd =>
      processQueue_required_spacing baseDelay thunks t0 last0 k p q jd hp hq hjd, ?_⟩
  intro u d1 d2
  refine ⟨_, _, _, _, rfl, ?_⟩
  simp only [getRandomizedDelay]
  split_ifs <;> omega

/-- C6 witness. -/
theorem processQueue_fifo_rate_limited_witness :
    (∃ s1 f1 s2 f2,
      processQueue 1000 0 0 [(0, 5), (0, 7)] = [(s1, f1), (s2, f2)] ∧
      s1 + 1000 ≤ s2) ∧
    (4005 : ℕ) + 1000 + 400 ≤ 5405 :=
  ⟨(processQueue_fifo_rate_limited 1000 0 0 []).2.2.2 0 5 7,
    (processQueue_fifo_rate_limited 1000 2000 3000 [(0, 5), (400, 7)]).2.2.1 0
      (4000, 4005) (5405, 5412) (400, 7) (by decide) (by decide) (by decide)⟩

/-! ## Claim C7: `fetchMarketData` validation and rejection -/

/-- The settled transport outcome of an enqueued request thunk
(`database.js` bundle, lines 480-488): either the `fetch` call itself
rejects, or it yields a response carrying the 2xx `ok` flag, the status
code, and a body whose `response.json()` parse may itself fail. -/
structure HttpResponse (α : Type) where
  ok : Bool
  status : ℕ
  body : Except String α
deriving Repr

/-- `fetchMarketData` (`database.js` bundle, lines 453-489).  The first
component records whether the request thunk was handed to
`requestQueue.enqueue` (the two validation throws happen synchronously
before that); the second is the settled outcome: the thunk rejects on
transport error, on `!response.ok` (with the interpolated status message),
or on a body that fails `response.json()`. -/
def fetchMarketData {α : Type} (itemIDs : List ℕ)
    (transport : Except String (HttpResponse α)) : Bool × Except String α :=
  if itemIDs.isEmpty then
    (false, Except.error "itemIDs array cannot be empty")
  else if MAX_ITEMS_PER_CALL < itemIDs.length then
    (false, Except.error "Cannot fetch more than 5 items in a single API call")
  else
    (true,
      match transport with
      | Except.error e => Except.error e
      | Except.ok response =>
        if response.ok then response.body
        else Except.error ("Universalis API error: " ++ toString response.status))

/-- C7 (counterexample): the "rejects if and only if invalid batch, failed
HTTP request, or non-2xx status" claim misses one rejection cause: a 2xx
response whose body fails to parse as JSON also rejects, with a valid
one-element batch and a successful `ok` transport. -/
theorem fetchMarketData_bad_json_rejects :
    (fetchMarketData [1]
        (Except.ok (⟨true, 200, Except.error "Unexpected token"⟩ : HttpResponse ℕ))).2 =
      Except.error "Unexpected token" ∧
    ([1] : List ℕ).isEmpty = false ∧
    ¬ MAX_ITEMS_PER_CALL < ([1] : List ℕ).length := by
  refine ⟨rfl, rfl, ?_⟩
  decide

/-- C7 (amended): an empty id list, or one longer than
`MAX_ITEMS_PER_CALL`, is rejected synchronously with nothing enqueued on the
rate-limit queue; and `fetchMarketData` rejects exactly when the batch is
invalid in one of those two ways, the HTTP request itself fails, the
response status is non-2xx, or the 2xx body fails to parse as JSON. -/
theorem fetchMarketData_validation (α : Type) (itemIDs : List ℕ)
    (transport : Except String (HttpResponse α)) :
    ((itemIDs.isEmpty = true ∨ MAX_ITEMS_PER_CALL < itemIDs.length) →
      (fetchMarketData itemIDs transport).1 = false ∧
      ∃ e, (fetchMarketData itemIDs transport).2 = Except.error e) ∧
    ((∃ e, (fetchMarketData itemIDs transport).2 = Except.error e) ↔
      (itemIDs.isEmpty = true ∨ MAX_ITEMS_PER_CALL < itemIDs.length ∨
        (∃ e, transport = Except.error e) ∨
        (∃ r, transport = Except.ok r ∧ r.ok = false) ∨
        (∃ r e, transport = Except.ok r ∧ r.ok = true ∧ r.body = Except.error e))) := by
  unfold fetchMarketData
  by_cases hemp : itemIDs.isEmpty = true
  · rw [if_pos hemp]
    exact ⟨fun _ => ⟨rfl, _, rfl⟩, fun _ => Or.inl hemp, fun _ => ⟨_, rfl⟩⟩
  · rw [if_neg hemp]
    by_cases hlen : MAX_ITEMS_PER_CALL < itemIDs.length
    · rw [if_pos hlen]
      exact ⟨fun _ => ⟨rfl, _, rfl⟩, fun _ => Or.inr (Or.inl hlen), fun _ => ⟨_, rfl⟩⟩
    · rw [if_neg hlen]
      refine ⟨?_, ?_⟩
      · rintro (hc | hc)
        · exact absurd hc hemp
        · exact absurd hc hlen
      · cases transport with
        | error e =>
          dsimp only
          exact ⟨fun _ => Or.inr (Or.inr (Or.inl ⟨e, rfl⟩)), fun _ => ⟨e, rfl⟩⟩
        | ok r =>
          dsimp only
          cases hok : r.ok with
          | true =>
            rw [if_pos rfl]
            cases hbody : r.body with
            | error e =>
              refine ⟨fun _ => Or.inr (Or.inr (Or.inr (Or.inr ⟨r, e, rfl, hok, hbody⟩))),
                fun _ => ⟨e, rfl⟩⟩
            | ok v =>
              refine ⟨?_, ?_⟩
              · rintro ⟨e, he⟩
                cases he
              · rintro (hc | hc | ⟨e, he⟩ | ⟨r2, hr2, ho⟩ | ⟨r2, e, hr2, ho, hb⟩)
                · exact absurd hc hemp
                · exact absurd hc hlen
                · cases he
                · cases hr2
                  rw [hok] at ho
                  cases ho
                · cases hr2
                  rw [hbody] at hb
                  cases hb
          | false =>
            rw [if_neg Bool.false_ne_true]
            exact ⟨fun _ => Or.inr (Or.inr (Or.inr (Or.inl ⟨r, rfl, hok⟩))),
              fun _ => ⟨_, rfl⟩⟩

/-- C7 witness. -/
theorem fetchMarketData_validation_witness :
    (fetchMarketData ([] : List ℕ)
      (Except.ok (⟨true, 200, Except.ok 0⟩ : HttpResponse ℕ))).1 = false :=
  ((fetchMarketData_validation ℕ []
    (Except.ok (⟨true, 200, Except.ok 0⟩ : HttpResponse ℕ))).1 (Or.inl rfl)).1

/-! ## Claim C9: `safeDbOperation` error handling -/

/-- `error.message.includes(pat)`. -/
def containsSub (msg pat : String) : Bool := (msg.splitOn pat).length ≥ 2

/-- The retry heuristic of `safeDbOperation` (`database.js` lines 119-121):
reinitialize only for a locked, missing-table or corrupted store. -/
def shouldReinit (msg : String) : Bool :=
  containsSub msg "database is locked" || containsSub msg "no such table" ||
    containsSub msg "SQLITE_CORRUPT"

/-- `safeDbOperation` (`database.js` lines 107-137).  `getDbResult` is what
`getDb()` yields (`none` when initialization fails), `reinitResult` what the
self-healing `initializeDatabase()` would yield on the retry path, and
`operation` the SQL body, which may throw.  Returns the result together with
the number of times `operation` was invoked (for the at-most-one-retry
property). -/
def safeDbOperation {α : Type} (getDbResult reinitResult : Option (List Row))
    (operation : List Row → Except String α) (defaultValue : α) : α × ℕ :=
  match getDbResult with
  | none => (defaultValue, 0)
  | some database =>
    match operation database with
    | Except.ok v => (v, 1)
    | Except.error msg =>
      if shouldReinit msg then
        match reinitResult with
        | none => (defaultValue, 1)
        | some newDb =>
          match operation newDb with
          | Except.ok v => (v, 2)
          | Except.error _ => (defaultValue, 2)
      else (defaultValue, 1)

/-- A persistence world: the handle `getDb()` yields (if any), the handle a
reinitialization would yield, and an injected SQLite failure making every
statement throw that message while present. -/
structure DbWorld where
  current : Option (List Row)
  reinitResult : Option (List Row)
  failMsg : Option String

/-- Run one SQL operation body against a database handle of world `w`:
throws the injected failure when present, otherwise computes the pure
relational result. -/
def runOp {α : Type} (w : DbWorld) (body : List Row → α) :
    List Row → Except String α :=
  fun rows =>
    match w.failMsg with
    | some msg => Except.error msg
    | none => Except.ok (body rows)

/-- `getItemById` as exported (wrapped in `safeDbOperation`, default
`null`). -/
def getItemByIdSafe (w : DbWorld) (itemID : ℕ) : Option ItemView :=
  (safeDbOperation w.current w.reinitResult (runOp w (getItemById itemID)) none).1

/-- `getAllItems` as exported (default `[]`). -/
def getAllItemsSafe (w : DbWorld) : List ItemView :=
  (safeDbOperation w.current w.reinitResult (runOp w getAllItems) []).1

/-- `getItemsByClassification` as exported (default `[]`). -/
def getItemsByClassificationSafe (w : DbWorld) (classification : String) : List ItemView :=
  (safeDbOperation w.current w.reinitResult
    (runOp w (getItemsByClassification classification)) []).1

/-- `getAllItemIds` as exported (default `new Set()`, the empty id set). -/
def getAllItemIdsSafe (w : DbWorld) : List ℕ :=
  (safeDbOperation w.current w.reinitResult (runOp w getAllItemIds) []).1

/-- `getItemsNeedingUpdate` as exported (default empty groups). -/
def getItemsNeedingUpdateSafe (w : DbWorld) (now : ℕ) : UpdateGroups :=
  (safeDbOperation w.current w.reinitResult
    (runOp w (dbGetItemsNeedingUpdate now)) ⟨[], [], []⟩).1

/-- `hasItem` as exported (default `false`). -/
def hasItemSafe (w : DbWorld) (itemID : ℕ) : Bool :=
  (safeDbOperation w.current w.reinitResult (runOp w (hasItem itemID)) false).1

/-- `getItemCount` as exported (default `0`). -/
def getItemCountSafe (w : DbWorld) : ℕ :=
  (safeDbOperation w.current w.reinitResult (runOp w getItemCount) 0).1

/-- `upsertItem` as exported: the SQL body runs the write and reports `true`;
on any failure the wrapper reports `false` instead of throwing (the row
mutation itself is the pure `upsertItem` above). -/
def upsertItemSafe (w : DbWorld) (itemData : ItemRecord) (now : ℕ) : Bool :=
  (safeDbOperation w.current w.reinitResult
    (runOp w (fun rows => (upsertItem itemData now rows, true).2)) false).1

theorem safeDbOperation_runOp_default {α : Type} (w : DbWorld) (body : List Row → α)
    (d : α) (m : String) (hm : w.failMsg = some m) :
    (safeDbOperation w.current w.reinitResult (runOp w body) d).1 = d := by
  unfold safeDbOperation runOp
  cases w.current with
  | none => rfl
  | some db =>
    dsimp only
    rw [hm]
    dsimp only
    split_ifs with hre
    · cases w.reinitResult with
      | none => rfl
      | some db2 => rfl
    · rfl

/-- C9: when persistence fails, `safeDbOperation` returns its caller's safe
default instead of propagating: an uninitialized store short-circuits to the
default without running the operation; an operation that always throws
settles to the default; the operation is retried at most once (at most two
invocations: the original and the post-reinitialization retry); and under an
injected SQLite failure every exported read returns its safe default
(`null`, `[]`, empty id set, zero, empty groups) while `upsertItem` reports
`false` rather than crashing. -/
theorem safeDbOperation_error_handling :
    (∀ (α : Type) (reinit : Option (List Row)) (op : List Row → Except String α) (d : α),
      safeDbOperation none reinit op d = (d, 0)) ∧
    (∀ (α : Type) (cur reinit : Option (List Row)) (op : List Row → Except String α) (d : α),
      (∀ rows, ∃ m, op rows = Except.error m) →
      (safeDbOperation cur reinit op d).1 = d) ∧
    (∀ (α : Type) (cur reinit : Option (List Row)) (op : List Row → Except String α) (d : α),
      (safeDbOperation cur reinit op d).2 ≤ 2) ∧
    (∀ (w : DbWorld) (m : String), w.failMsg = some m →
      (∀ i, getItemByIdSafe w i = none) ∧
      getAllItemsSafe w = [] ∧
      (∀ c, getItemsByClassificationSafe w c = []) ∧
      getAllItemIdsSafe w = [] ∧
      (∀ now, getItemsNeedingUpdateSafe w now = ⟨[], [], []⟩) ∧
      (∀ i, hasItemSafe w i = false) ∧
      getItemCountSafe w = 0 ∧
      (∀ itemData now, upsertItemSafe w itemData now = false)) := by
  refine ⟨?_, ?_, ?_, ?_⟩
  · intro α reinit op d
    rfl
  · intro α cur reinit op d hfail
    cases cur with
    | none => rfl
    | some db =>
      obtain ⟨m, hm⟩ := hfail db
      unfold safeDbOperation
      dsimp only
      rw [hm]
      dsimp only
      split_ifs with hre
      · cases reinit with
        | none => rfl
        | some db2 =>
          obtain ⟨m2, hm2⟩ := hfail db2
          dsimp only
          rw [hm2]
      · rfl
  · intro α cur reinit op d
    unfold safeDbOperation
    repeat' split <;> norm_num
  · intro w m hm
    exact ⟨fun i => safeDbOperation_runOp_default w _ _ m hm,
      safeDbOperation_runOp_default w _ _ m hm,
      fun c => safeDbOperation_runOp_default w _ _ m hm,
      safeDbOperation_runOp_default w _ _ m hm,
      fun now => safeDbOperation_runOp_default w _ _ m hm,
      fun i => safeDbOperation_runOp_default w _ _ m hm,
      safeDbOperation_runOp_default w _ _ m hm,
      fun itemData now => safeDbOperation_runOp_default w _ _ m hm⟩

/-- C9 witness. -/
theorem safeDbOperation_error_handling_witness :
    getItemByIdSafe ⟨some [], some [], some "database is locked"⟩ 3 = none ∧
    upsertItemSafe ⟨some [], some [], some "database is locked"⟩
      ⟨1, "n", none, none, none, "cold", none, none⟩ 5 = false :=
  let h := safeDbOperation_error_handling.2.2.2
    ⟨some [], some [], some "database is locked"⟩ "database is locked" rfl
  ⟨h.1 3, h.2.2.2.2.2.2.2 ⟨1, "n", none, none, none, "cold", none, none⟩ 5⟩
